import Mathlib

/-!
Verification development for the qoqo quantum-circuit library.

The definitions below are shallow embeddings of the Python source:
* `Definition`, `Op`, `Circuit` and its append/index/iterate functions embed
  `qoqo/circuit/circuit.py` and `qoqo/operations/define_operations.py`;
* `CalculatorFloat`, `CalcExpr` and the substitution machinery embed the
  symbolic-parameter handling of `qoqo/operations/_operations_base_classes.py`
  (the external calculator package is modelled from the specification);
* the single-qubit gate variants and their matrices embed
  `qoqo/operations/single_qubit_gate_operations.py`;
* the measurement reconstruction embeds
  `qoqo/measurements/basis_rotation_measurement.py`.

Machine floats are modelled as `ℚ` (for the symbolic/measurement layers,
whose algorithms are exact) and as `ℝ`/`ℂ` (for the gate-matrix layer).
-/

namespace Qoqo

/-! ## Definitions and the circuit container (`circuit.py`, `define_operations.py`) -/

/-- A classical register declaration, embedding `Definition.__init__`
(`define_operations.py`): a name, a variable type, a length and the
input/output flags. -/
structure Definition where
  name : String
  vartype : String
  length : Nat
  is_input : Bool
  is_output : Bool
deriving DecidableEq, Repr

/-- Value equality of definitions, embedding `Definition.__eq__`
(`define_operations.py` lines 131-148): it compares the name, the length and
the variable type, and ignores the `is_input`/`is_output` flags. -/
def defEq (a b : Definition) : Bool :=
  a.name == b.name && a.length == b.length && a.vartype == b.vartype

/-- An operation appended to a circuit: either a `Definition` or any other
operation (the payload type `α` stands for the non-definition operations). -/
inductive Op (α : Type) where
  | defn (d : Definition)
  | other (x : α)
deriving DecidableEq, Repr

/-- The circuit container, embedding `Circuit.__init__`: a list of
definitions and a list of the remaining operations. -/
structure Circuit (α : Type) where
  definitions : List Definition
  operations : List α
deriving DecidableEq, Repr

/-- The empty circuit (`Circuit.__init__`). -/
def emptyCircuit (α : Type) : Circuit α := ⟨[], []⟩

/-- Membership test used by `Circuit._append_operation` for the check
`operation not in self._definitions`; Python `in` compares elementwise with
`Definition.__eq__`. -/
def containsDef (defs : List Definition) (d : Definition) : Bool :=
  defs.any (fun e => defEq d e)

/-- Embeds `Circuit._append_operation` (`circuit.py` lines 395-412):
a `Definition` is appended to the definitions list unless an equal one is
already present; any other operation is appended to the operations list. -/
def appendOperation {α : Type} (c : Circuit α) (op : Op α) : Circuit α :=
  match op with
  | .defn d =>
      if containsDef c.definitions d then c
      else ⟨c.definitions ++ [d], c.operations⟩
  | .other x => ⟨c.definitions, c.operations ++ [x]⟩

/-- A circuit built from an empty circuit by a sequence of appends. -/
def buildCircuit {α : Type} (l : List (Op α)) : Circuit α :=
  l.foldl appendOperation (emptyCircuit α)

/-- Embeds the integer case of `Circuit.__getitem__` (`circuit.py` lines
115-146) for in-range indices: index `k` maps into the definitions list while
`k` is below its length, and into the operations list at the shifted index
otherwise. -/
def getItem {α : Type} (c : Circuit α) (k : Nat) : Option (Op α) :=
  if k < c.definitions.length then (c.definitions.get? k).map .defn
  else (c.operations.get? (k - c.definitions.length)).map .other

/-- Embeds `Circuit.__iter__` (`circuit.py` lines 216-223): yields the
definitions first, then the operations. -/
def iterCircuit {α : Type} (c : Circuit α) : List (Op α) :=
  c.definitions.map .defn ++ c.operations.map .other

/-- Embeds `Circuit.__len__`. -/
def circuitLen {α : Type} (c : Circuit α) : Nat :=
  c.definitions.length + c.operations.length

/-- The definitions occurring in an append sequence, in order. -/
def defsOf {α : Type} (l : List (Op α)) : List Definition :=
  l.filterMap (fun op => match op with | .defn d => some d | .other _ => none)

/-- The non-definition operations occurring in an append sequence, in order. -/
def othersOf {α : Type} (l : List (Op α)) : List α :=
  l.filterMap (fun op => match op with | .defn _ => none | .other x => some x)

/-- First-seen deduplication by value equality: the order in which distinct
definitions first appear.  This is the claim-side description of the order
produced by repeated `_append_operation` calls. -/
def dedupFirstSeen (l : List Definition) : List Definition :=
  l.foldl (fun acc d => if containsDef acc d then acc else acc ++ [d]) []

theorem defEq_comm (a b : Definition) : defEq a b = defEq b a := by
  have hb : ∀ {β : Type} [inst : DecidableEq β] (x y : β), (x == y) = (y == x) := by
    intro β inst x y
    by_cases h : x = y <;> simp [h, Ne.symm]
  simp only [defEq]
  rw [hb a.name, hb a.length, hb a.vartype]

theorem foldl_append_spec {α : Type} (l : List (Op α)) (c : Circuit α) :
    (l.foldl appendOperation c).definitions
        = (defsOf l).foldl
            (fun acc d => if containsDef acc d then acc else acc ++ [d])
            c.definitions
      ∧ (l.foldl appendOperation c).operations = c.operations ++ othersOf l := by
  induction l generalizing c with
  | nil => simp [defsOf, othersOf]
  | cons hd tl ih =>
      cases hd with
      | defn d =>
          rcases ih (appendOperation c (.defn d)) with ⟨h1, h2⟩
          constructor
          · simpa [defsOf, appendOperation] using
              (by
                by_cases hc : containsDef c.definitions d
                · simpa [appendOperation, hc] using h1
                · simpa [appendOperation, hc] using h1)
          · by_cases hc : containsDef c.definitions d
            · simpa [defsOf, othersOf, appendOperation, hc] using h2
            · simpa [defsOf, othersOf, appendOperation, hc] using h2
      | other x =>
          rcases ih (appendOperation c (.other x)) with ⟨h1, h2⟩
          constructor
          · simpa [defsOf, appendOperation] using h1
          · simpa [defsOf, othersOf, appendOperation] using h2

theorem buildCircuit_definitions {α : Type} (l : List (Op α)) :
    (buildCircuit l).definitions = dedupFirstSeen (defsOf l) := by
  simpa [buildCircuit, emptyCircuit, dedupFirstSeen] using
    (foldl_append_spec l (emptyCircuit α)).1

theorem buildCircuit_operations {α : Type} (l : List (Op α)) :
    (buildCircuit l).operations = othersOf l := by
  simpa [buildCircuit, emptyCircuit] using (foldl_append_spec l (emptyCircuit α)).2

/-- C1: a circuit built by an arbitrary interleaved sequence of appends of
definitions and other operations satisfies the ordering invariant: indexing
with any `k` below the number of stored definitions returns a `Definition`,
and iterating the circuit yields all definitions (in dedup-first-seen order)
before all other operations (in append order). -/
theorem circuit_ordering_invariant {α : Type} (l : List (Op α)) (k : Nat)
    (hk : k < (buildCircuit l).definitions.length) :
    (∃ d : Definition, getItem (buildCircuit l) k = some (.defn d))
      ∧ iterCircuit (buildCircuit l)
          = (dedupFirstSeen (defsOf l)).map .defn ++ (othersOf l).map .other := by
  constructor
  · refine ⟨(buildCircuit l).definitions.get ⟨k, hk⟩, ?_⟩
    simp [getItem, hk, List.get?_eq_get hk]
  · simp [iterCircuit, buildCircuit_definitions, buildCircuit_operations]

theorem circuit_ordering_invariant_witness :
    (0 < (buildCircuit [Op.other 7, Op.defn ⟨"ro", "bit", 1, false, false⟩,
          Op.other 9]).definitions.length)
      ∧ ((∃ d : Definition,
            getItem (buildCircuit [Op.other 7, Op.defn ⟨"ro", "bit", 1, false, false⟩,
              Op.other 9]) 0 = some (.defn d))
          ∧ iterCircuit (buildCircuit [Op.other 7,
                Op.defn ⟨"ro", "bit", 1, false, false⟩, Op.other 9])
              = (dedupFirstSeen (defsOf [Op.other 7,
                    Op.defn ⟨"ro", "bit", 1, false, false⟩, Op.other 9])).map .defn
                  ++ (othersOf [Op.other 7, Op.defn ⟨"ro", "bit", 1, false, false⟩,
                        Op.other 9]).map .other) :=
  ⟨by decide,
    circuit_ordering_invariant
      [Op.other 7, Op.defn ⟨"ro", "bit", 1, false, false⟩, Op.other 9] 0 (by decide)⟩

theorem dedup_fold_pairwise (l : List Definition) (acc : List Definition)
    (hacc : acc.Pairwise (fun a b => defEq a b = false)) :
    (l.foldl (fun acc d => if containsDef acc d then acc else acc ++ [d])
        acc).Pairwise (fun a b => defEq a b = false) := by
  induction l generalizing acc with
  | nil => simpa using hacc
  | cons d tl ih =>
      by_cases hc : containsDef acc d
      · simpa [hc] using ih acc hacc
      · have hnotin : ∀ e ∈ acc, defEq d e = false := by
          intro e he
          by_contra hne
          exact hc (List.any_eq_true.mpr ⟨e, he, by
            cases h : defEq d e with
            | false => exact absurd h hne
            | true => rfl⟩)
        have hacc2 : (acc ++ [d]).Pairwise (fun a b => defEq a b = false) := by
          refine List.pairwise_append.mpr ⟨hacc, by simp, ?_⟩
          intro a ha b hb
          simp only [List.mem_singleton] at hb
          subst hb
          rw [defEq_comm]
          exact hnotin a ha
        simpa [hc] using ih (acc ++ [d]) hacc2

/-- C7 counterexample: the claim "at most one definition per distinct
register name" is false.  Appending two definitions that share the name
`ro` but differ in variable type stores both of them, because
`Definition.__eq__` compares name, length and type, so the two are not equal
by value and are not deduplicated. -/
theorem definitions_name_unique_counterexample :
    ¬((buildCircuit [Op.defn ⟨"ro", "bit", 1, false, false⟩,
          Op.defn ⟨"ro", "float", 1, false, false⟩,
          (Op.other 5 : Op Nat)]).definitions.countP
        (fun d => d.name == "ro") ≤ 1) := by
  decide

/-- C7 (amended): for every circuit built by appends, the stored definitions
are pairwise distinct under value equality (which compares name, variable
type and length and ignores the input/output flags) — so the circuit contains
at most one definition per value-equality class — and appending a
`Definition` equal by value to one already present leaves the circuit
unchanged. -/
theorem definitions_dedup_by_value {α : Type} (l : List (Op α)) (d : Definition)
    (hd : containsDef (buildCircuit l).definitions d = true) :
    (buildCircuit l).definitions.Pairwise (fun a b => defEq a b = false)
      ∧ appendOperation (buildCircuit l) (.defn d) = buildCircuit l := by
  constructor
  · have := dedup_fold_pairwise (defsOf l) [] (by simp)
    rw [buildCircuit_definitions l]
    simpa [dedupFirstSeen] using this
  · simp [appendOperation, hd]

theorem definitions_dedup_by_value_witness :
    (containsDef (buildCircuit [Op.defn ⟨"ro", "bit", 1, false, false⟩,
          (Op.other 5 : Op Nat)]).definitions ⟨"ro", "bit", 1, false, true⟩ = true)
      ∧ ((buildCircuit [Op.defn ⟨"ro", "bit", 1, false, false⟩,
            (Op.other 5 : Op Nat)]).definitions.Pairwise
              (fun a b => defEq a b = false)
          ∧ appendOperation
              (buildCircuit [Op.defn ⟨"ro", "bit", 1, false, false⟩,
                (Op.other 5 : Op Nat)])
              (.defn ⟨"ro", "bit", 1, false, true⟩)
            = buildCircuit [Op.defn ⟨"ro", "bit", 1, false, false⟩,
                (Op.other 5 : Op Nat)]) :=
  ⟨by decide,
    definitions_dedup_by_value
      [Op.defn ⟨"ro", "bit", 1, false, false⟩, (Op.other 5 : Op Nat)]
      ⟨"ro", "bit", 1, false, true⟩ (by decide)⟩

/-! ## The symbolic parameter engine

The calculator (`hqsbase.calculator`) is an external package, not part of
this repository; only its interface (`CalculatorFloat`, `parse_string`) is
used by `_operations_base_classes.py`.  It is therefore modelled from the
specification (sections 4.2, 7 and the design notes of `spec.md`). -/

/-- Modelled from the spec: the expression language of the external
calculator package (`hqsbase.calculator`), missing from the sources.  Spec
4.2 describes "a small arithmetic expression evaluator (supporting
+,-,*,/,**, and named functions such as sin/cos/exp)". -/
inductive CalcExpr where
  | const (v : ℚ)
  | var (name : String)
  | add (a b : CalcExpr)
  | sub (a b : CalcExpr)
  | mul (a b : CalcExpr)
  | div (a b : CalcExpr)
  | pow (a b : CalcExpr)
  | fn (name : String) (arg : CalcExpr)
deriving DecidableEq, Repr

/-- Modelled from the spec: the tagged float-or-expression wrapper
`CalculatorFloat` of the external calculator package — "literal number, or
symbolic expression string" (spec 4.2, design notes). -/
inductive CalculatorFloat where
  | lit (v : ℚ)
  | sym (e : CalcExpr)
deriving DecidableEq, Repr

/-- `CalculatorFloat.is_float`: true when the value is a literal number. -/
def CalculatorFloat.is_float : CalculatorFloat → Bool
  | .lit _ => true
  | .sym _ => false

/-- Modelled from the spec: evaluation of a calculator expression under a
set of name bindings and an oracle for the named functions (sin/cos/exp …);
`none` is the evaluator failure (an unresolved variable, a division by
zero, a fractional exponent or an unknown function). -/
def evalExpr (fns : String → ℚ → Option ℚ) (binds : List (String × ℚ)) :
    CalcExpr → Option ℚ
  | .const v => some v
  | .var n => binds.lookup n
  | .add a b => do pure ((← evalExpr fns binds a) + (← evalExpr fns binds b))
  | .sub a b => do pure ((← evalExpr fns binds a) - (← evalExpr fns binds b))
  | .mul a b => do pure ((← evalExpr fns binds a) * (← evalExpr fns binds b))
  | .div a b => do
      let x ← evalExpr fns binds a
      let y ← evalExpr fns binds b
      if y = 0 then none else pure (x / y)
  | .pow a b => do
      let x ← evalExpr fns binds a
      let y ← evalExpr fns binds b
      if y.den = 1 then pure (x ^ y.num) else none
  | .fn n a => do fns n (← evalExpr fns binds a)

/-- The error raised by the symbolic engine when a substitution leaves a
required field unresolved (spec section 7, taxonomy item 2). -/
inductive SubstError where
  | unresolved
deriving DecidableEq, Repr

/-- Substitution of one maybe-symbolic field, embedding the loop body of
`GateOperation.substitute_parameters` (`_operations_base_classes.py` lines
587-591): a literal field is left untouched; a symbolic field is
re-evaluated with the bindings prefixed as assignments, the evaluator
failure propagating as an unresolved-parameter error. -/
def substituteOne (fns : String → ℚ → Option ℚ) (binds : List (String × ℚ))
    (p : CalculatorFloat) : Except SubstError CalculatorFloat :=
  match p with
  | .lit v => .ok (.lit v)
  | .sym e =>
      match evalExpr fns binds e with
      | some v => .ok (.lit v)
      | none => .error .unresolved

/-- The field-by-field traversal of the ordered parameter dictionary in
`GateOperation.substitute_parameters` (lines 587-591). -/
def substPairs (fns : String → ℚ → Option ℚ) (binds : List (String × ℚ)) :
    List (String × CalculatorFloat)
      → Except SubstError (List (String × CalculatorFloat))
  | [] => .ok []
  | kv :: rest =>
      match substituteOne fns binds kv.2 with
      | .error e => .error e
      | .ok v =>
          match substPairs fns binds rest with
          | .error e => .error e
          | .ok tl => .ok ((kv.1, v) :: tl)

/-- The generic gate operation state: the ordered qubit dictionary, the
ordered parameter dictionary, the class-level rotation-strength parameter
list, the `_parametrized` flag and the involved-qubit set
(`GateOperation.__init__`, `_operations_base_classes.py` lines 400-429). -/
structure GateOp where
  qubits : List (String × Nat)
  params : List (String × CalculatorFloat)
  rotStrengthParams : Option (List String)
  parametrized : Bool
  involvedQubits : List Nat
deriving DecidableEq, Repr

/-- Embeds `GateOperation.substitute_parameters` (lines 570-592): when the
operation is parametrized, every field is re-evaluated (evaluation failure
raising), and on success the `_parametrized` flag is cleared; when the
operation is not parametrized nothing happens. -/
def substituteParameters (fns : String → ℚ → Option ℚ) (g : GateOp)
    (binds : List (String × ℚ)) : Except SubstError GateOp :=
  if g.parametrized then
    match substPairs fns binds g.params with
    | .error e => .error e
    | .ok ps => .ok { g with params := ps, parametrized := false }
  else .ok g

theorem any_not_float_eq_false {l : List (String × CalculatorFloat)}
    (h : l.all (fun p => p.2.is_float) = true) :
    l.any (fun p => !p.2.is_float) = false := by
  rw [List.all_eq_true] at h
  cases ha : l.any (fun p => !p.2.is_float) with
  | false => rfl
  | true =>
      rw [List.any_eq_true] at ha
      rcases ha with ⟨p, hmem, hp⟩
      have := h p hmem
      simp_all

theorem substPairs_all_float (fns : String → ℚ → Option ℚ)
    (binds : List (String × ℚ)) (l l' : List (String × CalculatorFloat))
    (h : substPairs fns binds l = .ok l') :
    l'.all (fun p => p.2.is_float) = true := by
  induction l generalizing l' with
  | nil =>
      simp only [substPairs] at h
      cases h
      simp
  | cons kv rest ih =>
      simp only [substPairs] at h
      cases hk : substituteOne fns binds kv.2 with
      | error e => rw [hk] at h; cases h
      | ok v =>
          rw [hk] at h
          cases ht : substPairs fns binds rest with
          | error e => rw [ht] at h; cases h
          | ok tl =>
              rw [ht] at h
              cases h
              have hv : v.is_float = true := by
                cases hkv : kv.2 with
                | lit w => rw [hkv] at hk; simp only [substituteOne] at hk; cases hk; rfl
                | sym e =>
                    rw [hkv] at hk
                    simp only [substituteOne] at hk
                    cases he : evalExpr fns binds e with
                    | none => rw [he] at hk; cases hk
                    | some w => rw [he] at hk; cases hk; rfl
              simpa [hv] using ih tl ht

/-- C2: after a `substitute_parameters` call returns successfully, every
field of the operation is a literal (in particular each successfully
resolved field is), and the `_parametrized` flag equals the logical OR of
"field is still symbolic" over the parameter fields.  The hypothesis is the
constructor invariant of `GateOperation.__init__`: a non-parametrized
operation has only literal fields.  A partially resolving substitution does
not return: the modelled evaluator raises, so the flag is never cleared
while a field is left symbolic.  (spec-modelled: the calculator package is
external and modelled from the spec.) -/
theorem substitute_resolves_all (fns : String → ℚ → Option ℚ) (g g' : GateOp)
    (binds : List (String × ℚ))
    (hinv : g.parametrized = false → g.params.all (fun p => p.2.is_float) = true)
    (hok : substituteParameters fns g binds = .ok g') :
    g'.params.all (fun p => p.2.is_float) = true
      ∧ g'.parametrized = g'.params.any (fun p => !p.2.is_float) := by
  cases hp : g.parametrized with
  | false =>
      simp only [substituteParameters, hp, Bool.false_eq_true, if_false] at hok
      cases hok
      have hall := hinv hp
      exact ⟨hall, by rw [hp, any_not_float_eq_false hall]⟩
  | true =>
      simp only [substituteParameters, hp, if_true] at hok
      cases hps : substPairs fns binds g.params with
      | error e => rw [hps] at hok; cases hok
      | ok ps =>
          rw [hps] at hok
          cases hok
          have hall := substPairs_all_float fns binds g.params ps hps
          exact ⟨hall, by simp [any_not_float_eq_false hall]⟩

theorem substitute_resolves_all_witness :
    ((GateOp.mk [("qubit", 0)] [("theta", .sym (.var "x"))] (some ["theta"])
        true [0]).parametrized = false
      → (GateOp.mk [("qubit", 0)] [("theta", .sym (.var "x"))] (some ["theta"])
          true [0]).params.all (fun p => p.2.is_float) = true)
      ∧ substituteParameters (fun _ _ => none)
          (GateOp.mk [("qubit", 0)] [("theta", .sym (.var "x"))] (some ["theta"])
            true [0]) [("x", 2)]
          = .ok (GateOp.mk [("qubit", 0)] [("theta", .lit 2)] (some ["theta"])
              false [0])
      ∧ ((GateOp.mk [("qubit", 0)] [("theta", .lit 2)] (some ["theta"])
            false [0]).params.all (fun p => p.2.is_float) = true
          ∧ (GateOp.mk [("qubit", 0)] [("theta", .lit 2)] (some ["theta"])
              false [0]).parametrized
            = (GateOp.mk [("qubit", 0)] [("theta", .lit 2)] (some ["theta"])
                false [0]).params.any (fun p => !p.2.is_float)) :=
  ⟨by decide, by rfl,
    substitute_resolves_all (fun _ _ => none)
      (GateOp.mk [("qubit", 0)] [("theta", .sym (.var "x"))] (some ["theta"])
        true [0])
      (GateOp.mk [("qubit", 0)] [("theta", .lit 2)] (some ["theta"]) false [0])
      [("x", 2)] (by decide) (by rfl)⟩

/-- C8: substitution is idempotent.  A successful `substitute_parameters`
call followed by a second call with the same bindings leaves the operation
unchanged — the first success clears the `_parametrized` flag, so the guard
in lines 583-592 skips the second pass — and applying
`substitute_parameters` to an operation whose fields are all literal (with
the constructor invariant relating the flag to the fields) is a no-op.
(spec-modelled: the calculator package is external and modelled from the
spec.) -/
theorem substitute_idempotent (fns : String → ℚ → Option ℚ)
    (binds : List (String × ℚ)) (g g' : GateOp)
    (hok : substituteParameters fns g binds = .ok g') :
    substituteParameters fns g' binds = .ok g'
      ∧ (g.params.all (fun p => p.2.is_float) = true
          → g.parametrized = g.params.any (fun p => !p.2.is_float)
          → substituteParameters fns g binds = .ok g) := by
  constructor
  · cases hp : g.parametrized with
    | false =>
        simp only [substituteParameters, hp, Bool.false_eq_true, if_false] at hok
        cases hok
        simp [substituteParameters, hp]
    | true =>
        simp only [substituteParameters, hp, if_true] at hok
        cases hps : substPairs fns binds g.params with
        | error e => rw [hps] at hok; cases hok
        | ok ps =>
            rw [hps] at hok
            cases hok
            simp [substituteParameters]
  · intro hall hflag
    have : g.parametrized = false := by rw [hflag, any_not_float_eq_false hall]
    simp [substituteParameters, this]

theorem substitute_idempotent_witness :
    substituteParameters (fun _ _ => none)
        (GateOp.mk [("qubit", 1)] [("theta", .sym (.var "x"))]
          (some ["theta"]) true [1]) [("x", 3)]
      = .ok (GateOp.mk [("qubit", 1)] [("theta", .lit 3)] (some ["theta"])
          false [1])
      ∧ (substituteParameters (fun _ _ => none)
            (GateOp.mk [("qubit", 1)] [("theta", .lit 3)] (some ["theta"])
              false [1]) [("x", 3)]
          = .ok (GateOp.mk [("qubit", 1)] [("theta", .lit 3)] (some ["theta"])
              false [1])
          ∧ ((GateOp.mk [("qubit", 1)]
                [("theta", .sym (.var "x"))]
                (some ["theta"]) true [1]).params.all
                  (fun p => p.2.is_float) = true
              → (GateOp.mk [("qubit", 1)]
                  [("theta", .sym (.var "x"))]
                  (some ["theta"]) true [1]).parametrized
                = (GateOp.mk [("qubit", 1)]
                    [("theta", .sym (.var "x"))]
                    (some ["theta"]) true [1]).params.any
                      (fun p => !p.2.is_float)
              → substituteParameters (fun _ _ => none)
                  (GateOp.mk [("qubit", 1)]
                    [("theta", .sym (.var "x"))]
                    (some ["theta"]) true [1]) [("x", 3)]
                = .ok (GateOp.mk [("qubit", 1)]
                    [("theta", .sym (.var "x"))]
                    (some ["theta"]) true [1]))) :=
  ⟨by rfl,
    substitute_idempotent (fun _ _ => none) [("x", 3)]
      (GateOp.mk [("qubit", 1)] [("theta", .sym (.var "x"))]
        (some ["theta"]) true [1])
      (GateOp.mk [("qubit", 1)] [("theta", .lit 3)] (some ["theta"]) false [1])
      (by rfl)⟩

/-! ## Gate exponentiation (`GateOperation.__pow__`, lines 466-490) -/

/-- The expression view of a maybe-symbolic value. -/
def CalculatorFloat.toExpr : CalculatorFloat → CalcExpr
  | .lit v => .const v
  | .sym e => e

/-- Modelled from the spec: the product of two maybe-symbolic values of the
external calculator package — numeric when both factors are literal,
otherwise the symbolic product expression. -/
def CalculatorFloat.mulCF : CalculatorFloat → CalculatorFloat → CalculatorFloat
  | .lit a, .lit b => .lit (a * b)
  | a, b => .sym (.mul a.toExpr b.toExpr)

/-- Python dict assignment `d[k] = v`: replaces the value at the first
matching key, keeping the key order; appends when the key is absent. -/
def setParam (ps : List (String × CalculatorFloat)) (k : String)
    (v : CalculatorFloat) : List (String × CalculatorFloat) :=
  match ps with
  | [] => [(k, v)]
  | kv :: rest =>
      if kv.1 == k then (kv.1, v) :: rest else kv :: setParam rest k v

inductive PowError where
  | notExponentiable
  | keyMissing
deriving DecidableEq, Repr

/-- The per-parameter loop of `GateOperation.__pow__` (lines 484-487): each
rotation-strength parameter of the copied operation is assigned the product
of the *original* operation's parameter with the exponent. -/
def powFold (orig : List (String × CalculatorFloat)) (p : ℚ) :
    List String → List (String × CalculatorFloat)
      → Except PowError (List (String × CalculatorFloat))
  | [], ps => .ok ps
  | k :: rest, ps =>
      match orig.lookup k with
      | none => .error .keyMissing
      | some v => powFold orig p rest (setParam ps k (v.mulCF (.lit p)))

/-- Embeds `GateOperation.__pow__` (lines 466-490): a copy of the operation
is made, each rotation-strength parameter is scaled by the exponent, and the
copy is marked parametrized if any parameter value is no longer literal;
gates without rotation-strength parameters cannot be exponentiated. -/
def powGate (g : GateOp) (p : ℚ) : Except PowError GateOp :=
  match g.rotStrengthParams with
  | none => .error .notExponentiable
  | some rots =>
      match powFold g.params p rots g.params with
      | .error e => .error e
      | .ok ps =>
          .ok { g with
                  params := ps,
                  parametrized :=
                    if ps.any (fun q => !q.2.is_float) then true
                    else g.parametrized }

def exceptDecEq {ε α : Type} [DecidableEq ε] [DecidableEq α] :
    DecidableEq (Except ε α)
  | .error x, .error y =>
      if h : x = y then .isTrue (by rw [h])
      else .isFalse (by intro hc; cases hc; exact h rfl)
  | .error _, .ok _ => .isFalse (by intro hc; cases hc)
  | .ok _, .error _ => .isFalse (by intro hc; cases hc)
  | .ok x, .ok y =>
      if h : x = y then .isTrue (by rw [h])
      else .isFalse (by intro hc; cases hc; exact h rfl)

instance {ε α : Type} [DecidableEq ε] [DecidableEq α] :
    DecidableEq (Except ε α) := exceptDecEq

theorem setParam_lookup (ps : List (String × CalculatorFloat)) (k k' : String)
    (v : CalculatorFloat) :
    (setParam ps k v).lookup k' = if k' == k then some v else ps.lookup k' := by
  induction ps with
  | nil => cases hbeq : k' == k <;> simp [setParam, List.lookup, hbeq]
  | cons kv rest ih =>
      obtain ⟨k1, v1⟩ := kv
      by_cases h1 : k1 = k
      · subst h1
        cases hbeq : k' == k1 <;> simp [setParam, List.lookup, hbeq]
      · have h1b : (k1 == k) = false := beq_eq_false_iff_ne.mpr h1
        by_cases h2 : k' = k1
        · subst h2
          simp [setParam, List.lookup, h1b]
        · have h2b : (k' == k1) = false := beq_eq_false_iff_ne.mpr h2
          simp [setParam, List.lookup, h1b, h2b, ih]

theorem powFold_lookup (orig : List (String × CalculatorFloat)) (p : ℚ)
    (rots : List String) (acc ps : List (String × CalculatorFloat))
    (h : powFold orig p rots acc = .ok ps) (k : String) :
    (k ∉ rots → ps.lookup k = acc.lookup k)
      ∧ (k ∈ rots → ∃ v : CalculatorFloat,
          orig.lookup k = some v
            ∧ ps.lookup k = some (v.mulCF (.lit p))) := by
  induction rots generalizing acc with
  | nil =>
      simp only [powFold] at h
      cases h
      exact ⟨fun _ => rfl, fun hk => absurd hk (List.not_mem_nil k)⟩
  | cons r rest ih =>
      simp only [powFold] at h
      cases hl : orig.lookup r with
      | none => rw [hl] at h; cases h
      | some v =>
          rw [hl] at h
          rcases ih (setParam acc r (v.mulCF (.lit p))) h with ⟨hnot, hmem⟩
          constructor
          · intro hk
            have hkr : ¬(k = r) := fun he => hk (he ▸ List.mem_cons_self r rest)
            have hkrest : k ∉ rest := fun he => hk (List.mem_cons_of_mem r he)
            rw [hnot hkrest, setParam_lookup]
            simp [beq_iff_eq, hkr]
          · intro hk
            rcases List.mem_cons.mp hk with hkr | hkrest
            · subst hkr
              by_cases hrest : k ∈ rest
              · exact hmem hrest
              · refine ⟨v, hl, ?_⟩
                rw [hnot hrest, setParam_lookup]
                simp
            · exact hmem hkrest

/-- C4: for every gate variant that declares rotation-strength parameters
and every scalar exponent, `G ** p` scales each declared rotation-strength
parameter by `p` (for a literal parameter value `v` the new value is the
literal `p * v`), leaves every other parameter unchanged, and keeps the
qubit assignments and involved qubits of `G`. -/
theorem pow_scales_rotation_parameters (g g' : GateOp) (p : ℚ)
    (rots : List String) (hrot : g.rotStrengthParams = some rots)
    (hok : powGate g p = .ok g') :
    (∀ k ∈ rots, ∀ v : ℚ, g.params.lookup k = some (.lit v)
        → g'.params.lookup k = some (.lit (p * v)))
      ∧ (∀ k : String, k ∉ rots → g'.params.lookup k = g.params.lookup k)
      ∧ g'.qubits = g.qubits ∧ g'.involvedQubits = g.involvedQubits := by
  simp only [powGate, hrot] at hok
  cases hf : powFold g.params p rots g.params with
  | error e => rw [hf] at hok; cases hok
  | ok ps =>
      rw [hf] at hok
      cases hok
      refine ⟨?_, ?_, rfl, rfl⟩
      · intro k hk v hv
        rcases (powFold_lookup g.params p rots g.params ps hf k).2 hk
          with ⟨w, hw, hps⟩
        rw [hv] at hw
        cases hw
        simpa [CalculatorFloat.mulCF, mul_comm] using hps
      · intro k hk
        exact (powFold_lookup g.params p rots g.params ps hf k).1 hk

theorem pow_scales_rotation_parameters_witness :
    ((GateOp.mk [("qubit", 2)] [("theta", .lit 3)] (some ["theta"])
        false [2]).rotStrengthParams = some ["theta"])
      ∧ (powGate (GateOp.mk [("qubit", 2)] [("theta", .lit 3)]
            (some ["theta"]) false [2]) 2
          = .ok (GateOp.mk [("qubit", 2)] [("theta", .lit (3 * 2))]
              (some ["theta"]) false [2]))
      ∧ ((∀ k ∈ ["theta"], ∀ v : ℚ,
            (GateOp.mk [("qubit", 2)] [("theta", .lit 3)] (some ["theta"])
              false [2]).params.lookup k = some (.lit v)
            → (GateOp.mk [("qubit", 2)] [("theta", .lit (3 * 2))]
                (some ["theta"]) false [2]).params.lookup k
              = some (.lit (2 * v)))
          ∧ (∀ k : String, k ∉ ["theta"]
              → (GateOp.mk [("qubit", 2)] [("theta", .lit (3 * 2))]
                  (some ["theta"]) false [2]).params.lookup k
                = (GateOp.mk [("qubit", 2)] [("theta", .lit 3)]
                    (some ["theta"]) false [2]).params.lookup k)
          ∧ (GateOp.mk [("qubit", 2)] [("theta", .lit (3 * 2))]
              (some ["theta"]) false [2]).qubits
            = (GateOp.mk [("qubit", 2)] [("theta", .lit 3)] (some ["theta"])
                false [2]).qubits
          ∧ (GateOp.mk [("qubit", 2)] [("theta", .lit (3 * 2))]
              (some ["theta"]) false [2]).involvedQubits
            = (GateOp.mk [("qubit", 2)] [("theta", .lit 3)] (some ["theta"])
                false [2]).involvedQubits) :=
  ⟨rfl, by rfl,
    pow_scales_rotation_parameters
      (GateOp.mk [("qubit", 2)] [("theta", .lit 3)] (some ["theta"]) false [2])
      (GateOp.mk [("qubit", 2)] [("theta", .lit (3 * 2))] (some ["theta"])
        false [2])
      2 ["theta"] rfl (by rfl)⟩

/-! ## The `unitary_matrix` property (`_operations_base_classes.py`, lines 626-644) -/

inductive MatrixError where
  | unresolvedParameter
  | noMatrixMethod
deriving DecidableEq, Repr

/-- The `.value` accessor of a maybe-symbolic value: the literal number or
the symbolic expression (the union stored by the calculator wrapper). -/
def CalculatorFloat.value : CalculatorFloat → ℚ ⊕ CalcExpr
  | .lit v => .inl v
  | .sym e => .inr e

/-- The dict comprehension of line 639: the parameter dictionary with each
value unwrapped through `.value`. -/
def paramValues (g : GateOp) : List (String × (ℚ ⊕ CalcExpr)) :=
  g.params.map (fun kv => (kv.1, kv.2.value))

/-- Embeds the `GateOperation.unitary_matrix` property (lines 626-644): a
parametrized gate raises the unresolved-parameter `ValueError` before any
matrix computation; otherwise the gate's `unitary_matrix_from_parameters`
method — `none` when `getattr` finds no such method, raising
`AttributeError` — is applied to the unwrapped parameter values. -/
def unitaryMatrixOf {M : Type} (matrixMethod : Option (List (String × (ℚ ⊕ CalcExpr)) → M))
    (g : GateOp) : Except MatrixError M :=
  if g.parametrized then .error .unresolvedParameter
  else
    match matrixMethod with
    | none => .error .noMatrixMethod
    | some f => .ok (f (paramValues g))

/-- C9: requesting the unitary matrix of a gate whose `is_parametrized`
flag is set fails with the unresolved-parameter error and never returns a
matrix, and for a non-parametrized gate that has a matrix method the
property returns the matrix computed from the parameter values, without
error. -/
theorem unitary_matrix_parametrized_errors {M : Type}
    (matrixMethod : Option (List (String × (ℚ ⊕ CalcExpr)) → M)) (g : GateOp) :
    (g.parametrized = true
        → unitaryMatrixOf matrixMethod g = .error .unresolvedParameter)
      ∧ (g.parametrized = false
          → ∀ f : List (String × (ℚ ⊕ CalcExpr)) → M, matrixMethod = some f
          → unitaryMatrixOf matrixMethod g = .ok (f (paramValues g))) := by
  constructor
  · intro hp
    simp [unitaryMatrixOf, hp]
  · intro hp f hf
    simp [unitaryMatrixOf, hp, hf]

theorem unitary_matrix_parametrized_errors_witness :
    ((GateOp.mk [("qubit", 0)] [("theta", .sym (.var "t"))] (some ["theta"])
        true [0]).parametrized = true)
      ∧ unitaryMatrixOf (some (fun _ => (42 : Nat)))
          (GateOp.mk [("qubit", 0)] [("theta", .sym (.var "t"))]
            (some ["theta"]) true [0])
        = .error .unresolvedParameter
      ∧ ((GateOp.mk [("qubit", 0)] [("theta", .lit 7)] (some ["theta"])
          false [0]).parametrized = false)
      ∧ unitaryMatrixOf (some (fun _ => (42 : Nat)))
          (GateOp.mk [("qubit", 0)] [("theta", .lit 7)] (some ["theta"])
            false [0])
        = .ok 42 :=
  ⟨rfl,
    (unitary_matrix_parametrized_errors (some (fun _ => (42 : Nat)))
      (GateOp.mk [("qubit", 0)] [("theta", .sym (.var "t"))] (some ["theta"])
        true [0])).1 rfl,
    rfl,
    (unitary_matrix_parametrized_errors (some (fun _ => (42 : Nat)))
      (GateOp.mk [("qubit", 0)] [("theta", .lit 7)] (some ["theta"])
        false [0])).2 rfl (fun _ => (42 : Nat)) rfl⟩

/-! ## Frame property of `__pow__`

Python dictionaries are mutable heap objects shared by reference, so to
state that `G ** p` does not change `G` we make the dictionary store
explicit: a gate object holds indices into a store of parameter and qubit
dictionaries.  `GateOperation.__copy__` (lines 546-559) allocates fresh
copies of both dictionaries; `__pow__` (lines 466-490) then writes only to
the copy's parameter dictionary. -/

structure DictHeap where
  paramDicts : List (List (String × CalculatorFloat))
  qubitDicts : List (List (String × Nat))
deriving DecidableEq, Repr

/-- A gate object with its two dictionaries held by reference. -/
structure GateRef where
  paramRef : Nat
  qubitRef : Nat
  rotStrengthParams : Option (List String)
  parametrized : Bool
  involvedQubits : List Nat
deriving DecidableEq, Repr

inductive PowRefError where
  | invalidRef
  | notExponentiable
  | keyMissing
deriving DecidableEq, Repr

/-- Embeds `GateOperation.__copy__` (lines 546-559): the copy receives
fresh dictionaries whose contents are copied from the original's, and the
scalar attributes are copied by value. -/
def copyGateRef (h : DictHeap) (g : GateRef) : Except PowRefError (GateRef × DictHeap) :=
  match h.paramDicts.get? g.paramRef, h.qubitDicts.get? g.qubitRef with
  | some pd, some qd =>
      .ok ({ g with paramRef := h.paramDicts.length,
                    qubitRef := h.qubitDicts.length },
           ⟨h.paramDicts ++ [pd], h.qubitDicts ++ [qd]⟩)
  | _, _ => .error .invalidRef

/-- The parameter-scaling loop of `__pow__` on the heap: each iteration
reads the original gate's dictionary and writes the scaled value into the
returned gate's dictionary. -/
def powRefFold (selfRef retRef : Nat) (p : ℚ) :
    List String → DictHeap → Except PowRefError DictHeap
  | [], h => .ok h
  | k :: rest, h =>
      match h.paramDicts.get? selfRef with
      | none => .error .invalidRef
      | some selfd =>
          match selfd.lookup k with
          | none => .error .keyMissing
          | some v =>
              match h.paramDicts.get? retRef with
              | none => .error .invalidRef
              | some retd =>
                  powRefFold selfRef retRef p rest
                    ⟨h.paramDicts.set retRef
                        (setParam retd k (v.mulCF (.lit p))),
                      h.qubitDicts⟩

/-- Embeds `GateOperation.__pow__` (lines 466-490) over the explicit
dictionary store: copy the gate, scale the copy's rotation-strength
parameters, then mark the copy parametrized when a scaled value is no
longer literal. -/
def powGateRef (h : DictHeap) (g : GateRef) (p : ℚ) :
    Except PowRefError (GateRef × DictHeap) :=
  match copyGateRef h g with
  | .error e => .error e
  | .ok (ret, h1) =>
      match g.rotStrengthParams with
      | none => .error .notExponentiable
      | some rots =>
          match powRefFold g.paramRef ret.paramRef p rots h1 with
          | .error e => .error e
          | .ok h2 =>
              match h2.paramDicts.get? ret.paramRef with
              | none => .error .invalidRef
              | some retd =>
                  .ok ({ ret with
                          parametrized :=
                            if retd.any (fun q => !q.2.is_float) then true
                            else g.parametrized }, h2)

theorem powRefFold_frame (selfRef retRef : Nat) (p : ℚ) (rots : List String)
    (h h' : DictHeap) (hok : powRefFold selfRef retRef p rots h = .ok h')
    (j : Nat) (hj : j ≠ retRef) :
    h'.paramDicts.get? j = h.paramDicts.get? j ∧ h'.qubitDicts = h.qubitDicts := by
  induction rots generalizing h with
  | nil =>
      simp only [powRefFold] at hok
      cases hok
      exact ⟨rfl, rfl⟩
  | cons r rest ih =>
      simp only [powRefFold] at hok
      cases h1 : h.paramDicts.get? selfRef with
      | none => rw [h1] at hok; cases hok
      | some selfd =>
          simp only [h1] at hok
          cases h2 : selfd.lookup r with
          | none => rw [h2] at hok; cases hok
          | some v =>
              simp only [h2] at hok
              cases h3 : h.paramDicts.get? retRef with
              | none => rw [h3] at hok; cases hok
              | some retd =>
                  simp only [h3] at hok
                  rcases ih _ hok with ⟨ha, hb⟩
                  refine ⟨?_, hb⟩
                  rw [ha]
                  simp only [List.get?_eq_getElem?]
                  exact List.getElem?_set_ne (Ne.symm hj)

/-- C10: `G ** p` returns a new gate object and leaves `G` unchanged: after
the call, `G`'s parameter dictionary and qubit dictionary (looked up in the
store) hold exactly what they held before, and the returned gate's
dictionaries are fresh objects distinct from `G`'s.  `G`'s scalar
attributes (`_parametrized`, `_involved_qubits`) are fields of the
unmodified record `g` itself, so they are unchanged as well. -/
theorem pow_leaves_base_unchanged (h : DictHeap) (g : GateRef) (p : ℚ)
    (g' : GateRef) (h' : DictHeap)
    (hp : g.paramRef < h.paramDicts.length)
    (hq : g.qubitRef < h.qubitDicts.length)
    (hok : powGateRef h g p = .ok (g', h')) :
    h'.paramDicts.get? g.paramRef = h.paramDicts.get? g.paramRef
      ∧ h'.qubitDicts.get? g.qubitRef = h.qubitDicts.get? g.qubitRef
      ∧ g'.paramRef ≠ g.paramRef ∧ g'.qubitRef ≠ g.qubitRef := by
  have hpd : ∃ pd, h.paramDicts.get? g.paramRef = some pd :=
    ⟨h.paramDicts.get ⟨g.paramRef, hp⟩, List.get?_eq_get hp⟩
  have hqd : ∃ qd, h.qubitDicts.get? g.qubitRef = some qd :=
    ⟨h.qubitDicts.get ⟨g.qubitRef, hq⟩, List.get?_eq_get hq⟩
  rcases hpd with ⟨pd, hpd⟩
  rcases hqd with ⟨qd, hqd⟩
  simp only [powGateRef, copyGateRef, hpd, hqd] at hok
  cases hrot : g.rotStrengthParams with
  | none => rw [hrot] at hok; cases hok
  | some rots =>
      simp only [hrot] at hok
      cases hfold : powRefFold g.paramRef h.paramDicts.length p rots
          ⟨h.paramDicts ++ [pd], h.qubitDicts ++ [qd]⟩ with
      | error e => rw [hfold] at hok; cases hok
      | ok h2 =>
          simp only [hfold] at hok
          cases hretd : h2.paramDicts.get? h.paramDicts.length with
          | none => rw [hretd] at hok; cases hok
          | some retd =>
              simp only [hretd] at hok
              cases hok
              have hne : g.paramRef ≠ h.paramDicts.length := Nat.ne_of_lt hp
              rcases powRefFold_frame g.paramRef h.paramDicts.length p rots
                  _ _ hfold g.paramRef hne with ⟨hfr, hfq⟩
              refine ⟨?_, ?_, Ne.symm hne, Ne.symm (Nat.ne_of_lt hq)⟩
              · rw [hfr]
                simp only [List.get?_eq_getElem?]
                exact List.getElem?_append_left hp
              · rw [hfq]
                simp only [List.get?_eq_getElem?]
                exact List.getElem?_append_left hq

theorem pow_leaves_base_unchanged_witness :
    (0 < (DictHeap.mk [[("theta", .lit 3)]] [[("qubit", 0)]]).paramDicts.length)
      ∧ (0 < (DictHeap.mk [[("theta", .lit 3)]] [[("qubit", 0)]]).qubitDicts.length)
      ∧ (powGateRef (DictHeap.mk [[("theta", .lit 3)]] [[("qubit", 0)]])
            (GateRef.mk 0 0 (some ["theta"]) false [0]) 2
          = .ok (GateRef.mk 1 1 (some ["theta"]) false [0],
              DictHeap.mk [[("theta", .lit 3)], [("theta", .lit (3 * 2))]]
                [[("qubit", 0)], [("qubit", 0)]]))
      ∧ ((DictHeap.mk [[("theta", .lit 3)], [("theta", .lit (3 * 2))]]
            [[("qubit", 0)], [("qubit", 0)]]).paramDicts.get? 0
          = (DictHeap.mk [[("theta", .lit 3)]] [[("qubit", 0)]]).paramDicts.get? 0
        ∧ (DictHeap.mk [[("theta", .lit 3)], [("theta", .lit (3 * 2))]]
            [[("qubit", 0)], [("qubit", 0)]]).qubitDicts.get? 0
          = (DictHeap.mk [[("theta", .lit 3)]] [[("qubit", 0)]]).qubitDicts.get? 0
        ∧ (GateRef.mk 1 1 (some ["theta"]) false [0]).paramRef
            ≠ (GateRef.mk 0 0 (some ["theta"]) false [0]).paramRef
        ∧ (GateRef.mk 1 1 (some ["theta"]) false [0]).qubitRef
            ≠ (GateRef.mk 0 0 (some ["theta"]) false [0]).qubitRef) :=
  ⟨by decide, by decide,
    by rfl,
    pow_leaves_base_unchanged
      (DictHeap.mk [[("theta", .lit 3)]] [[("qubit", 0)]])
      (GateRef.mk 0 0 (some ["theta"]) false [0]) 2
      (GateRef.mk 1 1 (some ["theta"]) false [0])
      (DictHeap.mk [[("theta", .lit 3)], [("theta", .lit (3 * 2))]]
        [[("qubit", 0)], [("qubit", 0)]])
      (by decide) (by decide) (by rfl)⟩

/-! ## Measurement reconstruction (`basis_rotation_measurement.py`, lines 207-274)

Shots are rows of measured bits; complex numbers are pairs of rationals
(real and imaginary part).  The model covers the fidelity computation, the
correction factors, the per-shot Pauli products, the averaging, the
mitigation division, the register-wise summation and the final linear
transform; the backend dispatch loop and the `global_phase` passthrough are
outside the claims. -/

/-- Numeric value of one measured bit. -/
def bitVal (b : Bool) : ℕ := if b then 1 else 0

/-- The measurement input bundle
(`measurement_auxiliary_data_input.py`, `BRMeasurementInput.__init__`). -/
structure BRInput where
  pauliProductQubitMasks : List (String × List (Nat × List Nat))
  ppToExpValMatrix : List (List (ℚ × ℚ))
  numberQubits : Nat
  numberPauliProducts : Nat
  measuredExpVals : List String
  useFlippedMeasurement : Bool
deriving DecidableEq, Repr

/-- Per-qubit measurement fidelity (lines 207-218): with a device error
model, each qubit below `number_qubits` gets `(2 - p_0_as_1 - p_1_as_0)/2`
and the remaining array entries keep their zero initialisation; without a
device every qubit has fidelity 1 (`np.ones`). -/
def measurementFidelity (dev : Option (Nat → ℚ × ℚ)) (numberQubits : Nat)
    (q : Nat) : ℚ :=
  match dev with
  | none => 1
  | some err => if q < numberQubits then (2 - (err q).1 - (err q).2) / 2 else 0

/-- One Pauli product's correction factor (lines 225-230): 1 for the empty
mask, otherwise the product of the fidelities of the contributing qubits. -/
def correctionFactor (fid : Nat → ℚ) (L : List Nat) : ℚ :=
  if L.isEmpty then 1 else L.foldl (fun a q => a * fid q) 1

/-- The per-register correction-factor vector (lines 223-231): initialised
to ones, overwritten at each mask index. -/
def correctionFactors (fid : Nat → ℚ) (mask : List (Nat × List Nat))
    (nPP : Nat) : List ℚ :=
  (List.range nPP).map (fun j =>
    match mask.lookup j with
    | none => 1
    | some L => correctionFactor fid L)

/-- The row of per-shot Pauli products for one shot (lines 239-252): the
column for a declared index `j` with qubit list `L` is the constant 1 when
`L` is empty and `(-1)` to the parity sum over `L` otherwise (on
bit-complemented values for flipped registers); undeclared columns keep the
zero initialisation. -/
def shotColumn (flipped : Bool) (mask : List (Nat × List Nat)) (nPP : Nat)
    (row : List Bool) : List ℚ :=
  (List.range nPP).map (fun j =>
    match mask.lookup j with
    | none => 0
    | some L =>
        if L.isEmpty then 1
        else (-1 : ℚ) ^ (L.foldl (fun acc q =>
            acc + (if flipped then 1 - bitVal (row.getD q false)
                   else bitVal (row.getD q false))) 0))

/-- The `single_shot_pauli_products` matrix (lines 235-252), one row per
shot. -/
def singleShotPauliProducts (flipped : Bool) (mask : List (Nat × List Nat))
    (nPP : Nat) (rows : List (List Bool)) : List (List ℚ) :=
  rows.map (shotColumn flipped mask nPP)

/-- The per-register Pauli-product expectation vector (lines 253-255):
the shot average (`np.mean` over axis 0) of the per-shot products. -/
def pauliProductsOfRegister (flipped : Bool) (mask : List (Nat × List Nat))
    (nPP : Nat) (rows : List (List Bool)) : List ℚ :=
  (List.range nPP).map (fun j =>
    ((singleShotPauliProducts flipped mask nPP rows).map
        (fun col => col.getD j 0)).sum / rows.length)

inductive RecError where
  | missingRegister
deriving DecidableEq, Repr

/-- The loop over `pauli_product_qubit_masks` (lines 233-255), producing
`pauli_product_dict`; a missing register is the hard "incomplete
measurement" error. -/
def buildPPDict (nPP : Nat) (regs : List (String × List (List Bool))) :
    List (String × List (Nat × List Nat))
      → Except RecError (List (String × List ℚ))
  | [] => .ok []
  | (name, mask) :: rest =>
      match regs.lookup name with
      | none => .error .missingRegister
      | some rows =>
          match buildPPDict nPP regs rest with
          | .error e => .error e
          | .ok tl =>
              .ok ((name,
                pauliProductsOfRegister (name.endsWith "flipped") mask nPP rows)
                  :: tl)

/-- The elementwise mitigation division of lines 260-264:
`((plain + flipped) / 2) / correction_factor`. -/
def mitigateVals (nPP : Nat) (cf : List ℚ) (vals fvals : List ℚ) : List ℚ :=
  (List.range nPP).map (fun j =>
    ((vals.getD j 0 + fvals.getD j 0) / 2) / cf.getD j 1)

/-- The mitigation pass over `pauli_product_dict` (lines 257-264): each
non-flipped register's vector is replaced by the mitigated combination with
its `_flipped` companion; flipped entries are left as they are. -/
def applyMitigation (inp : BRInput) (fid : Nat → ℚ)
    (full : List (String × List ℚ)) :
    List (String × List ℚ) → Except RecError (List (String × List ℚ))
  | [] => .ok []
  | (name, vals) :: rest =>
      match applyMitigation inp fid full rest with
      | .error e => .error e
      | .ok tl =>
          if name.endsWith "flipped" then .ok ((name, vals) :: tl)
          else
            match full.lookup (name ++ "_flipped"),
                inp.pauliProductQubitMasks.lookup name with
            | some fvals, some mask =>
                .ok ((name,
                  mitigateVals inp.numberPauliProducts
                    (correctionFactors fid mask inp.numberPauliProducts)
                    vals fvals) :: tl)
            | _, _ => .error .missingRegister

/-- The index-wise summation over non-flipped registers (lines 265-268). -/
def sumPauliProducts (nPP : Nat) (ppDict : List (String × List ℚ)) : List ℚ :=
  (List.range nPP).map (fun j =>
    ppDict.foldl
      (fun acc kv =>
        if kv.1.endsWith "flipped" then acc else acc + kv.2.getD j 0) 0)

/-- Complex matrix–vector product with a real vector (line 270). -/
def matVec (m : List (List (ℚ × ℚ))) (v : List ℚ) : List (ℚ × ℚ) :=
  m.map (fun row =>
    (row.zip v).foldl
      (fun acc p => (acc.1 + p.1.1 * p.2, acc.2 + p.1.2 * p.2)) (0, 0))

/-- The reconstruction pipeline of `BasisRotationMeasurement.__call__`
(lines 219-274) after the dispatch loop: Pauli products per register,
optional mitigation, register summation, linear transform and naming. -/
def reconstructExpectationValues (inp : BRInput) (dev : Option (Nat → ℚ × ℚ))
    (regs : List (String × List (List Bool))) :
    Except RecError (List (String × (ℚ × ℚ))) :=
  let fid := measurementFidelity dev inp.numberQubits
  match buildPPDict inp.numberPauliProducts regs inp.pauliProductQubitMasks with
  | .error e => .error e
  | .ok ppDict =>
      match (if inp.useFlippedMeasurement
              then applyMitigation inp fid ppDict ppDict
              else .ok ppDict) with
      | .error e => .error e
      | .ok ppDict2 =>
          let pps := sumPauliProducts inp.numberPauliProducts ppDict2
          let evs := matVec inp.ppToExpValMatrix pps
          .ok ((inp.measuredExpVals.zip evs).map
            (fun p => ("exp_val_" ++ p.1, p.2)))

theorem range_map_getD {β : Type} (f : Nat → β) (d : β) (n j : Nat)
    (hj : j < n) : ((List.range n).map f).getD j d = f j := by
  rw [List.getD_eq_getElem?_getD, List.getElem?_map, List.getElem?_range hj]
  rfl

theorem foldl_add_eq_sum_map (g : Nat → Nat) (L : List Nat) (n : Nat) :
    L.foldl (fun acc q => acc + g q) n = n + (L.map g).sum := by
  induction L generalizing n with
  | nil => simp
  | cons q rest ih => simp [ih, add_assoc]

theorem sum_map_one (rows : List (List Bool)) :
    (rows.map (fun _ => (1 : ℚ))).sum = (rows.length : ℚ) := by
  induction rows with
  | nil => simp
  | cons r rest ih => simp [ih, add_comm]

/-- C5: per register and per declared Pauli-product index with
contributing-qubit list `L`, the reconstructed Pauli-product expectation is
the shot average of the per-shot product, which is the constant 1 when `L`
is empty and `(−1)^(Σ bits over L)` otherwise (with bit-complemented values
when the register name carries the flipped suffix); and the end-to-end
example — masks `ro ↦ {0 ↦ []}`, transform `[[1]]`, one qubit, one Pauli
product, a register `ro` of all-zero shots — reconstructs
`exp_val_example = 1`. -/
theorem pauli_product_parity_and_example (flipped : Bool)
    (mask : List (Nat × List Nat)) (nPP : Nat) (rows : List (List Bool))
    (j : Nat) (L : List Nat) (shots : List (List Bool))
    (hj : j < nPP) (hL : mask.lookup j = some L) (hrows : rows ≠ [])
    (hshots : shots ≠ [])
    (hall : ∀ row ∈ shots, ∀ b ∈ row, b = false) :
    (pauliProductsOfRegister flipped mask nPP rows).getD j 0
        = (rows.map (fun row =>
            if L = [] then (1 : ℚ)
            else (-1 : ℚ) ^ ((L.map (fun q =>
                if flipped then 1 - bitVal (row.getD q false)
                else bitVal (row.getD q false))).sum))).sum / rows.length
      ∧ reconstructExpectationValues
          (BRInput.mk [("ro", [(0, [])])] [[((1 : ℚ), (0 : ℚ))]] 1 1
            ["example"] false)
          none [("ro", shots)]
        = .ok [("exp_val_example", ((1 : ℚ), (0 : ℚ)))] := by
  constructor
  · rw [pauliProductsOfRegister, range_map_getD _ _ _ _ hj]
    rw [singleShotPauliProducts, List.map_map]
    have hm : rows.map ((fun col => List.getD col j (0 : ℚ)) ∘ shotColumn flipped mask nPP)
        = rows.map (fun row =>
            if L = [] then (1 : ℚ)
            else (-1 : ℚ) ^ ((L.map (fun q =>
                if flipped then 1 - bitVal (row.getD q false)
                else bitVal (row.getD q false))).sum)) := by
      refine List.map_congr_left ?_
      intro row _
      show (shotColumn flipped mask nPP row).getD j 0 = _
      rw [shotColumn, range_map_getD _ _ _ _ hj]
      simp only [hL]
      by_cases hLe : L = []
      · simp [hLe]
      · rw [if_neg (fun h => hLe (List.isEmpty_iff.mp h)), if_neg hLe]
        rw [foldl_add_eq_sum_map]
        simp
    rw [hm]
  · have hlen : ((shots.length : ℚ)) ≠ 0 := by
      simpa using fun hc => hshots (List.length_eq_zero.mp hc)
    have hcol : ∀ row : List Bool,
        (shotColumn false [(0, [])] 1 row).getD 0 0 = (1 : ℚ) := by
      intro row
      rw [shotColumn, range_map_getD _ _ _ _ (by decide : 0 < 1)]
      simp [List.lookup]
    have hpp : pauliProductsOfRegister false [(0, [])] 1 shots = [(1 : ℚ)] := by
      rw [pauliProductsOfRegister]
      have hr1 : List.range 1 = [0] := rfl
      rw [hr1]
      simp only [List.map_cons, List.map_nil]
      rw [singleShotPauliProducts, List.map_map]
      have hmm : shots.map ((fun col => List.getD col 0 (0 : ℚ)) ∘ shotColumn false [(0, [])] 1)
          = shots.map (fun _ => (1 : ℚ)) :=
        List.map_congr_left (fun row _ => hcol row)
      rw [hmm, sum_map_one, div_self hlen]
    have hro : (("ro" : String).endsWith "flipped") = false := by decide
    rw [reconstructExpectationValues]
    simp only [buildPPDict, List.lookup, beq_self_eq_true, hro, hpp,
      Bool.false_eq_true, if_false]
    have hsum : sumPauliProducts 1 [("ro", [(1 : ℚ)])] = [(1 : ℚ)] := by
      rw [sumPauliProducts]
      have hr1 : List.range 1 = [0] := rfl
      rw [hr1]
      simp [hro]
    rw [hsum]
    have hmv : matVec [[((1 : ℚ), (0 : ℚ))]] [(1 : ℚ)] = [((1 : ℚ), (0 : ℚ))] := by
      rw [matVec]
      simp [List.zip]
    rw [hmv]
    rfl

theorem pauli_product_parity_and_example_witness :
    (0 < 1 ∧ ([((0 : Nat), ([] : List Nat))].lookup 0 = some [])
        ∧ ([[false]] : List (List Bool)) ≠ [] ∧ ([[false]] : List (List Bool)) ≠ []
        ∧ ∀ row ∈ ([[false]] : List (List Bool)), ∀ b ∈ row, b = false)
      ∧ ((pauliProductsOfRegister false [(0, [])] 1 [[false]]).getD 0 0
          = (([[false]] : List (List Bool)).map (fun row =>
              if ([] : List Nat) = [] then (1 : ℚ)
              else (-1 : ℚ) ^ ((([] : List Nat).map (fun q =>
                  if false then 1 - bitVal (row.getD q false)
                  else bitVal (row.getD q false))).sum))).sum
              / ([[false]] : List (List Bool)).length
        ∧ reconstructExpectationValues
            (BRInput.mk [("ro", [(0, [])])] [[((1 : ℚ), (0 : ℚ))]] 1 1
              ["example"] false)
            none [("ro", [[false]])]
          = .ok [("exp_val_example", ((1 : ℚ), (0 : ℚ)))]) :=
  ⟨⟨by decide, by decide, by decide, by decide, by decide⟩,
    pauli_product_parity_and_example false [(0, [])] 1 [[false]] 0 [] [[false]]
      (by decide) (by decide) (by decide) (by decide) (by decide)⟩

theorem foldl_mul_eq_prod_map (g : Nat → ℚ) (L : List Nat) (c : ℚ) :
    L.foldl (fun a q => a * g q) c = c * (L.map g).prod := by
  induction L generalizing c with
  | nil => simp
  | cons q rest ih => simp [ih, mul_assoc]

/-- C6: with readout-error mitigation enabled, the mitigation pass replaces
each non-flipped register entry by the elementwise mitigated vector, whose
value at a declared Pauli-product index with qubit list `L` is
`((plain + flipped) / 2) / correction_factor` with `correction_factor` the
product of the per-qubit fidelities over `L`; the fidelity of every qubit
is 1 when no device error model is supplied and
`(2 − P(0→1) − P(1→0)) / 2` for a device-covered qubit. -/
theorem readout_mitigation_correction (inp : BRInput) (fid : Nat → ℚ)
    (full tl : List (String × List ℚ)) (name : String) (vals fvals : List ℚ)
    (rest : List (String × List ℚ)) (mask : List (Nat × List Nat)) (j : Nat)
    (L : List Nat)
    (hnf : name.endsWith "flipped" = false)
    (hfv : full.lookup (name ++ "_flipped") = some fvals)
    (hmask : inp.pauliProductQubitMasks.lookup name = some mask)
    (hrest : applyMitigation inp fid full rest = .ok tl)
    (hj : j < inp.numberPauliProducts)
    (hL : mask.lookup j = some L) :
    applyMitigation inp fid full ((name, vals) :: rest)
        = .ok ((name, mitigateVals inp.numberPauliProducts
            (correctionFactors fid mask inp.numberPauliProducts) vals fvals)
              :: tl)
      ∧ (mitigateVals inp.numberPauliProducts
            (correctionFactors fid mask inp.numberPauliProducts)
            vals fvals).getD j 0
          = ((vals.getD j 0 + fvals.getD j 0) / 2)
              / (if L = [] then 1 else (L.map fid).prod)
      ∧ (∀ q : Nat, measurementFidelity none inp.numberQubits q = 1)
      ∧ (∀ perr : Nat → ℚ × ℚ, ∀ q : Nat, q < inp.numberQubits →
          measurementFidelity (some perr) inp.numberQubits q
            = (2 - (perr q).1 - (perr q).2) / 2) := by
  refine ⟨?_, ?_, ?_, ?_⟩
  · simp only [applyMitigation, hrest, hnf, hfv, hmask, Bool.false_eq_true,
      if_false]
  · rw [mitigateVals, range_map_getD _ _ _ _ hj]
    have hcf : (correctionFactors fid mask inp.numberPauliProducts).getD j 1
        = if L = [] then 1 else (L.map fid).prod := by
      rw [correctionFactors, range_map_getD _ _ _ _ hj]
      simp only [hL]
      rw [correctionFactor]
      by_cases hLe : L = []
      · simp [hLe]
      · rw [if_neg (fun h => hLe (List.isEmpty_iff.mp h)), if_neg hLe]
        rw [foldl_mul_eq_prod_map]
        simp
    rw [hcf]
  · intro q
    rfl
  · intro perr q hq
    simp [measurementFidelity, hq]

theorem readout_mitigation_correction_witness :
    ((("pl" : String).endsWith "flipped" = false)
        ∧ ([("pl", [(1 : ℚ)]), ("pl_flipped", [(1 : ℚ)])].lookup
            (("pl" : String) ++ "_flipped") = some [(1 : ℚ)])
        ∧ ((BRInput.mk [("pl", [(0, [0])])] [[((1 : ℚ), (0 : ℚ))]] 1 1
              ["example"] true).pauliProductQubitMasks.lookup "pl"
            = some [(0, [0])])
        ∧ (applyMitigation
              (BRInput.mk [("pl", [(0, [0])])] [[((1 : ℚ), (0 : ℚ))]] 1 1
                ["example"] true) (fun _ => 1)
              [("pl", [(1 : ℚ)]), ("pl_flipped", [(1 : ℚ)])]
              ([] : List (String × List ℚ))
            = .ok ([] : List (String × List ℚ)))
        ∧ (0 < 1) ∧ ([((0 : Nat), [(0 : Nat)])].lookup 0 = some [0]))
      ∧ (applyMitigation
            (BRInput.mk [("pl", [(0, [0])])] [[((1 : ℚ), (0 : ℚ))]] 1 1
              ["example"] true) (fun _ => 1)
            [("pl", [(1 : ℚ)]), ("pl_flipped", [(1 : ℚ)])]
            [("pl", [(1 : ℚ)])]
          = .ok [("pl", mitigateVals 1
              (correctionFactors (fun _ => 1) [(0, [0])] 1) [(1 : ℚ)]
              [(1 : ℚ)])]
        ∧ (mitigateVals 1 (correctionFactors (fun _ => 1) [(0, [0])] 1)
              [(1 : ℚ)] [(1 : ℚ)]).getD 0 0
            = (((1 : ℚ) + (1 : ℚ)) / 2)
                / (if ([(0 : Nat)] : List Nat) = [] then 1
                   else (([(0 : Nat)] : List Nat).map (fun _ => (1 : ℚ))).prod)
        ∧ (∀ q : Nat, measurementFidelity none 1 q = 1)
        ∧ (∀ perr : Nat → ℚ × ℚ, ∀ q : Nat, q < 1 →
            measurementFidelity (some perr) 1 q
              = (2 - (perr q).1 - (perr q).2) / 2)) :=
  ⟨⟨by decide, by rfl, by rfl, by rfl, by decide, by rfl⟩,
    readout_mitigation_correction
      (BRInput.mk [("pl", [(0, [0])])] [[((1 : ℚ), (0 : ℚ))]] 1 1
        ["example"] true) (fun _ => 1)
      [("pl", [(1 : ℚ)]), ("pl_flipped", [(1 : ℚ)])] [] "pl"
      [(1 : ℚ)] [(1 : ℚ)] [] [(0, [0])] 0 [0]
      (by decide) (by rfl) (by rfl) (by rfl) (by decide) (by rfl)⟩

/-! ## Single-qubit gates and their unitary matrices
(`single_qubit_gate_operations.py`)

Machine floats become `ℝ`, complex matrices become
`Matrix (Fin 2) (Fin 2) ℂ`, and floating-point closeness becomes equality. -/

/-- `CalculatorComplex.from_pair`: the complex number with the given real
and imaginary parts. -/
noncomputable def fromPair (x y : ℝ) : ℂ := (x : ℂ) + (y : ℂ) * Complex.I

/-- The single-qubit gate variants of `single_qubit_gate_operations.py`,
each with its qubit and its numeric parameters. -/
inductive SQGate where
  | singleQubitGate (qubit : Nat) (alpha_r alpha_i beta_r beta_i global_phase : ℝ)
  | hadamard (qubit : Nat)
  | pauliX (qubit : Nat)
  | pauliY (qubit : Nat)
  | pauliZ (qubit : Nat)
  | sGate (qubit : Nat)
  | tGate (qubit : Nat)
  | sqrtPauliX (qubit : Nat)
  | invSqrtPauliX (qubit : Nat)
  | rotateX (qubit : Nat) (theta : ℝ)
  | rotateY (qubit : Nat) (theta : ℝ)
  | rotateZ (qubit : Nat) (theta : ℝ)
  | rotateAroundSphericalAxis (qubit : Nat) (theta spherical_theta spherical_phi : ℝ)
  | w (qubit : Nat) (theta spherical_phi : ℝ)

/-- The qubit the gate acts on (`_ordered_qubits_dict['qubit']`). -/
def SQGate.qubit : SQGate → Nat
  | .singleQubitGate q _ _ _ _ _ => q
  | .hadamard q => q
  | .pauliX q => q
  | .pauliY q => q
  | .pauliZ q => q
  | .sGate q => q
  | .tGate q => q
  | .sqrtPauliX q => q
  | .invSqrtPauliX q => q
  | .rotateX q _ => q
  | .rotateY q _ => q
  | .rotateZ q _ => q
  | .rotateAroundSphericalAxis q _ _ _ => q
  | .w q _ _ => q

/-- `_alpha_r` of each variant. -/
noncomputable def SQGate.alphaR : SQGate → ℝ
  | .singleQubitGate _ ar _ _ _ _ => ar
  | .hadamard _ => 0
  | .pauliX _ => 0
  | .pauliY _ => 0
  | .pauliZ _ => 0
  | .sGate _ => 1 / Real.sqrt 2
  | .tGate _ => Real.cos (Real.pi / 8)
  | .sqrtPauliX _ => Real.cos (Real.pi / 4)
  | .invSqrtPauliX _ => Real.cos (Real.pi / 4)
  | .rotateX _ theta => Real.cos (theta / 2)
  | .rotateY _ theta => Real.cos (theta / 2)
  | .rotateZ _ theta => Real.cos (theta / 2)
  | .rotateAroundSphericalAxis _ theta _ _ => Real.cos (theta / 2)
  | .w _ theta _ => Real.cos (theta / 2)

/-- `_alpha_i` of each variant. -/
noncomputable def SQGate.alphaI : SQGate → ℝ
  | .singleQubitGate _ _ ai _ _ _ => ai
  | .hadamard _ => -(1 / Real.sqrt 2)
  | .pauliX _ => 0
  | .pauliY _ => 0
  | .pauliZ _ => -1
  | .sGate _ => -(1 / Real.sqrt 2)
  | .tGate _ => -Real.sin (Real.pi / 8)
  | .sqrtPauliX _ => 0
  | .invSqrtPauliX _ => 0
  | .rotateX _ _ => 0
  | .rotateY _ _ => 0
  | .rotateZ _ theta => -Real.sin (theta / 2)
  | .rotateAroundSphericalAxis _ theta sth _ =>
      -(Real.sin (theta / 2) * Real.cos sth)
  | .w _ _ _ => 0

/-- `_beta_r` of each variant. -/
noncomputable def SQGate.betaR : SQGate → ℝ
  | .singleQubitGate _ _ _ br _ _ => br
  | .hadamard _ => 0
  | .pauliX _ => 0
  | .pauliY _ => 1
  | .pauliZ _ => 0
  | .sGate _ => 0
  | .tGate _ => 0
  | .sqrtPauliX _ => 0
  | .invSqrtPauliX _ => 0
  | .rotateX _ _ => 0
  | .rotateY _ theta => Real.sin (theta / 2)
  | .rotateZ _ _ => 0
  | .rotateAroundSphericalAxis _ theta sth sph =>
      Real.sin (theta / 2) * Real.sin sph * Real.sin sth
  | .w _ theta sph => Real.sin (theta / 2) * Real.sin sph

/-- `_beta_i` of each variant. -/
noncomputable def SQGate.betaI : SQGate → ℝ
  | .singleQubitGate _ _ _ _ bi _ => bi
  | .hadamard _ => -(1 / Real.sqrt 2)
  | .pauliX _ => -1
  | .pauliY _ => 0
  | .pauliZ _ => 0
  | .sGate _ => 0
  | .tGate _ => 0
  | .sqrtPauliX _ => -Real.sin (Real.pi / 4)
  | .invSqrtPauliX _ => Real.sin (Real.pi / 4)
  | .rotateX _ theta => -Real.sin (theta / 2)
  | .rotateY _ _ => 0
  | .rotateZ _ _ => 0
  | .rotateAroundSphericalAxis _ theta sth sph =>
      -(Real.sin (theta / 2) * Real.cos sph * Real.sin sth)
  | .w _ theta sph => -(Real.sin (theta / 2) * Real.cos sph)

/-- `_global_phase` of each variant. -/
noncomputable def SQGate.globalPhase : SQGate → ℝ
  | .singleQubitGate _ _ _ _ _ gp => gp
  | .hadamard _ => Real.pi / 2
  | .pauliX _ => Real.pi / 2
  | .pauliY _ => Real.pi / 2
  | .pauliZ _ => Real.pi / 2
  | .sGate _ => Real.pi / 4
  | .tGate _ => Real.pi / 8
  | .sqrtPauliX _ => 0
  | .invSqrtPauliX _ => 0
  | .rotateX _ _ => 0
  | .rotateY _ _ => 0
  | .rotateZ _ _ => 0
  | .rotateAroundSphericalAxis _ _ _ _ => 0
  | .w _ _ _ => 0

/-- The matrix form
`exp(i·phase)·[[alpha, -conj(beta)], [beta, conj(alpha)]]` used by
`SingleQubitGate.unitary_matrix_from_parameters`. -/
noncomputable def phaseMatrix (a b : ℂ) (g : ℝ) : Matrix (Fin 2) (Fin 2) ℂ :=
  Complex.exp ((g : ℂ) * Complex.I) •
    !![a, -(starRingEnd ℂ) b; b, (starRingEnd ℂ) a]

/-- `SingleQubitGate.unitary_matrix_from_parameters` (lines 247-273). -/
noncomputable def sqgMatrix (ar ai br bi gp : ℝ) : Matrix (Fin 2) (Fin 2) ℂ :=
  phaseMatrix (fromPair ar ai) (fromPair br bi) gp

/-- `unitary_matrix_from_parameters` of every variant, transcribed from the
respective static methods. -/
noncomputable def SQGate.unitaryMatrix : SQGate → Matrix (Fin 2) (Fin 2) ℂ
  | .singleQubitGate _ ar ai br bi gp => sqgMatrix ar ai br bi gp
  | .hadamard _ =>
      ((1 / Real.sqrt 2 : ℝ) : ℂ) • !![1, 1; 1, -1]
  | .pauliX _ => !![0, 1; 1, 0]
  | .pauliY _ => !![0, -Complex.I; Complex.I, 0]
  | .pauliZ _ => !![1, 0; 0, -1]
  | .sGate _ => !![1, 0; 0, Complex.I]
  | .tGate _ => !![1, 0; 0, Complex.exp (Complex.I * (Real.pi / 4 : ℝ))]
  | .sqrtPauliX _ =>
      !![(Real.cos (Real.pi / 2 / 2) : ℂ),
          -Complex.I * (Real.sin (Real.pi / 2 / 2) : ℝ);
        -Complex.I * (Real.sin (Real.pi / 2 / 2) : ℝ),
          (Real.cos (Real.pi / 2 / 2) : ℂ)]
  | .invSqrtPauliX _ =>
      !![(Real.cos (-Real.pi / 2 / 2) : ℂ),
          -Complex.I * (Real.sin (-Real.pi / 2 / 2) : ℝ);
        -Complex.I * (Real.sin (-Real.pi / 2 / 2) : ℝ),
          (Real.cos (-Real.pi / 2 / 2) : ℂ)]
  | .rotateX _ theta =>
      !![(Real.cos (theta / 2) : ℂ), -Complex.I * (Real.sin (theta / 2) : ℝ);
        -Complex.I * (Real.sin (theta / 2) : ℝ), (Real.cos (theta / 2) : ℂ)]
  | .rotateY _ theta =>
      !![(Real.cos (theta / 2) : ℂ), -(Real.sin (theta / 2) : ℝ);
        (Real.sin (theta / 2) : ℝ), (Real.cos (theta / 2) : ℂ)]
  | .rotateZ _ theta =>
      !![(Real.cos (theta / 2) : ℂ) - Complex.I * (Real.sin (theta / 2) : ℝ), 0;
        0, (Real.cos (theta / 2) : ℂ) + Complex.I * (Real.sin (theta / 2) : ℝ)]
  | .rotateAroundSphericalAxis _ theta sth sph =>
      !![(Real.cos (theta / 2) : ℂ)
            - Complex.I * (Real.sin (theta / 2) : ℝ) * (Real.cos sth : ℝ),
          (Real.sin (theta / 2) : ℂ)
            * (-Complex.I * ((Real.sin sth * Real.cos sph : ℝ) : ℂ)
                - ((Real.sin sth * Real.sin sph : ℝ) : ℂ));
        (Real.sin (theta / 2) : ℂ)
            * (-Complex.I * ((Real.sin sth * Real.cos sph : ℝ) : ℂ)
                + ((Real.sin sth * Real.sin sph : ℝ) : ℂ)),
          (Real.cos (theta / 2) : ℂ)
            + Complex.I * (Real.sin (theta / 2) : ℝ) * (Real.cos sth : ℝ)]
  | .w _ theta sph =>
      !![(Real.cos (theta / 2) : ℂ)
            - Complex.I * (Real.sin (theta / 2) : ℝ) * (0 : ℝ),
          (Real.sin (theta / 2) : ℂ)
            * (-Complex.I * ((Real.cos sph : ℝ) : ℂ) - ((Real.sin sph : ℝ) : ℂ));
        (Real.sin (theta / 2) : ℂ)
            * (-Complex.I * ((Real.cos sph : ℝ) : ℂ) + ((Real.sin sph : ℝ) : ℂ)),
          (Real.cos (theta / 2) : ℂ)
            + Complex.I * (Real.sin (theta / 2) : ℝ) * (0 : ℝ)]

inductive MulError where
  | domainMismatch
deriving DecidableEq, Repr

/-- Embeds `SingleQubitGateOperation.__mul__` (lines 152-198): gates on
different qubits cannot be multiplied; otherwise the product is the generic
single-qubit gate computed from the closed-form complex product of the
`(alpha, beta)` pairs with the conjugate cross terms, and the summed global
phases. -/
noncomputable def SQGate.mul (A B : SQGate) : Except MulError SQGate :=
  if A.qubit = B.qubit then
    let a := fromPair A.alphaR A.alphaI
    let b := fromPair A.betaR A.betaI
    let oa := fromPair B.alphaR B.alphaI
    let ob := fromPair B.betaR B.betaI
    let na := a * oa - ob * (starRingEnd ℂ) b
    let nb := b * oa + ob * (starRingEnd ℂ) a
    .ok (.singleQubitGate A.qubit na.re na.im nb.re nb.im
          (A.globalPhase + B.globalPhase))
  else .error .domainMismatch

theorem fromPair_re_im (z : ℂ) : fromPair z.re z.im = z := by
  simp [fromPair, Complex.re_add_im]

theorem phaseMatrix_mul (a b oa ob : ℂ) (g1 g2 : ℝ) :
    phaseMatrix (a * oa - ob * (starRingEnd ℂ) b)
        (b * oa + ob * (starRingEnd ℂ) a) (g1 + g2)
      = phaseMatrix a b g1 * phaseMatrix oa ob g2 := by
  rw [phaseMatrix, phaseMatrix, phaseMatrix, Matrix.smul_mul, Matrix.mul_smul,
    smul_smul, ← Complex.exp_add]
  have hg : ((g1 + g2 : ℝ) : ℂ) * Complex.I
      = (g1 : ℂ) * Complex.I + (g2 : ℂ) * Complex.I := by
    push_cast
    ring
  rw [hg]
  congr 1
  ext i j
  fin_cases i <;> fin_cases j <;>
    simp [Matrix.mul_apply, Fin.sum_univ_two, map_add, map_mul, map_sub,
      Complex.conj_conj] <;> ring

theorem exp_real_mul_I (x : ℝ) :
    Complex.exp ((x : ℂ) * Complex.I)
      = ((Real.cos x : ℝ) : ℂ) + ((Real.sin x : ℝ) : ℂ) * Complex.I := by
  rw [Complex.exp_mul_I, Complex.ofReal_cos, Complex.ofReal_sin]

theorem ofReal_div_two_re (x : ℝ) : ((x : ℂ) / 2).re = x / 2 := by
  rw [show ((x : ℂ) / 2) = ((x / 2 : ℝ) : ℂ) by push_cast; ring]
  simp

theorem ofReal_div_two_im (x : ℝ) : ((x : ℂ) / 2).im = 0 := by
  rw [show ((x : ℂ) / 2) = ((x / 2 : ℝ) : ℂ) by push_cast; ring]
  simp

theorem conj_two : (starRingEnd ℂ) (2 : ℂ) = 2 := by
  rw [show (2 : ℂ) = ((2 : ℝ) : ℂ) by norm_num, Complex.conj_ofReal]

theorem cos_half_coe_re (x : ℝ) :
    (Complex.cos ((x : ℂ) / 2)).re = Real.cos (x / 2) := by
  rw [show ((x : ℂ) / 2) = ((x / 2 : ℝ) : ℂ) by push_cast; ring,
    Complex.cos_ofReal_re]

theorem cos_half_coe_im (x : ℝ) : (Complex.cos ((x : ℂ) / 2)).im = 0 := by
  rw [show ((x : ℂ) / 2) = ((x / 2 : ℝ) : ℂ) by push_cast; ring,
    Complex.cos_ofReal_im]

theorem sin_half_coe_re (x : ℝ) :
    (Complex.sin ((x : ℂ) / 2)).re = Real.sin (x / 2) := by
  rw [show ((x : ℂ) / 2) = ((x / 2 : ℝ) : ℂ) by push_cast; ring,
    Complex.sin_ofReal_re]

theorem sin_half_coe_im (x : ℝ) : (Complex.sin ((x : ℂ) / 2)).im = 0 := by
  rw [show ((x : ℂ) / 2) = ((x / 2 : ℝ) : ℂ) by push_cast; ring,
    Complex.sin_ofReal_im]

set_option maxHeartbeats 1000000 in
/-- Each gate variant's published matrix agrees with the
`exp(i·phase)·[[alpha, -conj(beta)], [beta, conj(alpha)]]` form built from
its derived scalars. -/
theorem unitary_coherence (G : SQGate) :
    G.unitaryMatrix
      = phaseMatrix (fromPair G.alphaR G.alphaI) (fromPair G.betaR G.betaI)
          G.globalPhase := by
  have hpi2 : Complex.exp ((Real.pi : ℂ) / 2 * Complex.I) = Complex.I := by
    have hx : ((Real.pi : ℂ) / 2) = ((Real.pi / 2 : ℝ) : ℂ) := by push_cast; ring
    rw [hx, exp_real_mul_I, Real.cos_pi_div_two, Real.sin_pi_div_two]
    simp
  have hpi4 : Complex.exp ((Real.pi : ℂ) / 4 * Complex.I)
      = ((Real.sqrt 2 / 2 : ℝ) : ℂ) + ((Real.sqrt 2 / 2 : ℝ) : ℂ) * Complex.I := by
    have hx : ((Real.pi : ℂ) / 4) = ((Real.pi / 4 : ℝ) : ℂ) := by push_cast; ring
    rw [hx, exp_real_mul_I, Real.cos_pi_div_four, Real.sin_pi_div_four]
  have hpi8 : Complex.exp ((Real.pi : ℂ) / 8 * Complex.I)
      = ((Real.cos (Real.pi / 8) : ℝ) : ℂ)
          + ((Real.sin (Real.pi / 8) : ℝ) : ℂ) * Complex.I := by
    have hx : ((Real.pi : ℂ) / 8) = ((Real.pi / 8 : ℝ) : ℂ) := by push_cast; ring
    rw [hx, exp_real_mul_I]
  have hpi8sq : Complex.exp (Complex.I * ((Real.pi : ℂ) / 4))
      = (((Real.cos (Real.pi / 8) : ℝ) : ℂ)
            + ((Real.sin (Real.pi / 8) : ℝ) : ℂ) * Complex.I)
          * (((Real.cos (Real.pi / 8) : ℝ) : ℂ)
              + ((Real.sin (Real.pi / 8) : ℝ) : ℂ) * Complex.I) := by
    have hx : Complex.I * ((Real.pi : ℂ) / 4)
        = (Real.pi : ℂ) / 8 * Complex.I + (Real.pi : ℂ) / 8 * Complex.I := by
      ring
    rw [hx, Complex.exp_add, hpi8]
  have hs2 : Real.sqrt 2 * Real.sqrt 2 = 2 := Real.mul_self_sqrt (by norm_num)
  have hs2ne : Real.sqrt 2 ≠ 0 := by
    intro hc
    rw [hc] at hs2
    norm_num at hs2
  have hpyth := Real.sin_sq_add_cos_sq (Real.pi / 8)
  cases G with
  | singleQubitGate q ar ai br bi gp => rfl
  | hadamard q =>
      ext i j
      fin_cases i <;> fin_cases j <;>
        simp [SQGate.unitaryMatrix, phaseMatrix, fromPair, SQGate.alphaR,
          SQGate.alphaI, SQGate.betaR, SQGate.betaI, SQGate.globalPhase,
          hpi2, hpi4, hpi8, hpi8sq, Complex.ext_iff]
  | pauliX q =>
      ext i j
      fin_cases i <;> fin_cases j <;>
        simp [SQGate.unitaryMatrix, phaseMatrix, fromPair, SQGate.alphaR,
          SQGate.alphaI, SQGate.betaR, SQGate.betaI, SQGate.globalPhase,
          hpi2, hpi4, hpi8, hpi8sq, Complex.ext_iff]
  | pauliY q =>
      ext i j
      fin_cases i <;> fin_cases j <;>
        simp [SQGate.unitaryMatrix, phaseMatrix, fromPair, SQGate.alphaR,
          SQGate.alphaI, SQGate.betaR, SQGate.betaI, SQGate.globalPhase,
          hpi2, hpi4, hpi8, hpi8sq, Complex.ext_iff]
  | pauliZ q =>
      ext i j
      fin_cases i <;> fin_cases j <;>
        simp [SQGate.unitaryMatrix, phaseMatrix, fromPair, SQGate.alphaR,
          SQGate.alphaI, SQGate.betaR, SQGate.betaI, SQGate.globalPhase,
          hpi2, hpi4, hpi8, hpi8sq, Complex.ext_iff]
  | sGate q =>
      ext i j
      fin_cases i <;> fin_cases j <;>
        simp [SQGate.unitaryMatrix, phaseMatrix, fromPair, SQGate.alphaR,
          SQGate.alphaI, SQGate.betaR, SQGate.betaI, SQGate.globalPhase,
          hpi2, hpi4, hpi8, hpi8sq, Complex.ext_iff] <;>
        nlinarith [hs2]
  | tGate q =>
      have hA : Real.sqrt (2 + Real.sqrt 2) * Real.sqrt (2 + Real.sqrt 2)
          = 2 + Real.sqrt 2 :=
        Real.mul_self_sqrt (by positivity)
      have hB : Real.sqrt (2 - Real.sqrt 2) * Real.sqrt (2 - Real.sqrt 2)
          = 2 - Real.sqrt 2 :=
        Real.mul_self_sqrt (by nlinarith [hs2, Real.sqrt_nonneg 2])
      ext i j
      fin_cases i <;> fin_cases j
      · simp [SQGate.unitaryMatrix, phaseMatrix, fromPair, SQGate.alphaR,
          SQGate.alphaI, SQGate.betaR, SQGate.betaI, SQGate.globalPhase,
          conj_two, ofReal_div_two_re, ofReal_div_two_im, hpi2, hpi4, hpi8, hpi8sq, Complex.ext_iff]
        constructor
        · nlinarith [hA, hB]
        · ring
      · simp [SQGate.unitaryMatrix, phaseMatrix, fromPair, SQGate.alphaR,
          SQGate.alphaI, SQGate.betaR, SQGate.betaI, SQGate.globalPhase,
          hpi2, hpi4, hpi8, hpi8sq, Complex.ext_iff]
      · simp [SQGate.unitaryMatrix, phaseMatrix, fromPair, SQGate.alphaR,
          SQGate.alphaI, SQGate.betaR, SQGate.betaI, SQGate.globalPhase,
          hpi2, hpi4, hpi8, hpi8sq, Complex.ext_iff]
      · simp [SQGate.unitaryMatrix, phaseMatrix, fromPair, SQGate.alphaR,
          SQGate.alphaI, SQGate.betaR, SQGate.betaI, SQGate.globalPhase,
          conj_two, ofReal_div_two_re, ofReal_div_two_im, hpi2, hpi4, hpi8, hpi8sq, Complex.ext_iff]
  | sqrtPauliX q =>
      ext i j
      fin_cases i <;> fin_cases j <;>
        simp [SQGate.unitaryMatrix, phaseMatrix, fromPair, SQGate.alphaR,
          SQGate.alphaI, SQGate.betaR, SQGate.betaI, SQGate.globalPhase,
          Complex.ext_iff, show Real.pi / 2 / 2 = Real.pi / 4 by ring,
          conj_two, ofReal_div_two_re, ofReal_div_two_im]
  | invSqrtPauliX q =>
      ext i j
      fin_cases i <;> fin_cases j <;>
        simp [SQGate.unitaryMatrix, phaseMatrix, fromPair, SQGate.alphaR,
          SQGate.alphaI, SQGate.betaR, SQGate.betaI, SQGate.globalPhase,
          Complex.ext_iff, show -Real.pi / 2 / 2 = -(Real.pi / 4) by ring,
          Real.cos_neg, Real.sin_neg, conj_two, ofReal_div_two_re,
          ofReal_div_two_im]
  | rotateX q theta =>
      ext i j
      fin_cases i <;> fin_cases j <;>
        simp [SQGate.unitaryMatrix, phaseMatrix, fromPair, SQGate.alphaR,
          SQGate.alphaI, SQGate.betaR, SQGate.betaI, SQGate.globalPhase,
          Complex.ext_iff, cos_half_coe_re, cos_half_coe_im, sin_half_coe_re,
          sin_half_coe_im, Complex.sin_ofReal_im, Complex.cos_ofReal_im,
          Complex.sin_ofReal_re, Complex.cos_ofReal_re] <;>
        ring_nf <;> simp
  | rotateY q theta =>
      ext i j
      fin_cases i <;> fin_cases j <;>
        simp [SQGate.unitaryMatrix, phaseMatrix, fromPair, SQGate.alphaR,
          SQGate.alphaI, SQGate.betaR, SQGate.betaI, SQGate.globalPhase,
          Complex.ext_iff, cos_half_coe_re, cos_half_coe_im, sin_half_coe_re,
          sin_half_coe_im, Complex.sin_ofReal_im, Complex.cos_ofReal_im,
          Complex.sin_ofReal_re, Complex.cos_ofReal_re] <;>
        ring_nf <;> simp
  | rotateZ q theta =>
      ext i j
      fin_cases i <;> fin_cases j <;>
        simp [SQGate.unitaryMatrix, phaseMatrix, fromPair, SQGate.alphaR,
          SQGate.alphaI, SQGate.betaR, SQGate.betaI, SQGate.globalPhase,
          Complex.ext_iff, cos_half_coe_re, cos_half_coe_im, sin_half_coe_re,
          sin_half_coe_im, Complex.sin_ofReal_im, Complex.cos_ofReal_im,
          Complex.sin_ofReal_re, Complex.cos_ofReal_re] <;>
        ring_nf <;> simp
  | rotateAroundSphericalAxis q theta sth sph =>
      ext i j
      fin_cases i <;> fin_cases j <;>
        simp [SQGate.unitaryMatrix, phaseMatrix, fromPair, SQGate.alphaR,
          SQGate.alphaI, SQGate.betaR, SQGate.betaI, SQGate.globalPhase,
          Complex.ext_iff, cos_half_coe_re, cos_half_coe_im, sin_half_coe_re,
          sin_half_coe_im, Complex.sin_ofReal_im, Complex.cos_ofReal_im,
          Complex.sin_ofReal_re, Complex.cos_ofReal_re] <;>
        ring_nf <;> simp
  | w q theta sph =>
      ext i j
      fin_cases i <;> fin_cases j <;>
        simp [SQGate.unitaryMatrix, phaseMatrix, fromPair, SQGate.alphaR,
          SQGate.alphaI, SQGate.betaR, SQGate.betaI, SQGate.globalPhase,
          Complex.ext_iff, cos_half_coe_re, cos_half_coe_im, sin_half_coe_re,
          sin_half_coe_im, Complex.sin_ofReal_im, Complex.cos_ofReal_im,
          Complex.sin_ofReal_re, Complex.cos_ofReal_re] <;>
        ring_nf <;> simp

/-- C3: for every pair of single-qubit gate operations on the same qubit,
the product gate computed by `__mul__` from the closed-form complex product
of the `(alpha, beta)` pairs with conjugate cross terms and summed global
phases has a unitary matrix equal to the matrix product of the two factors'
unitary matrices. -/
theorem single_qubit_mul_unitary (A B C : SQGate)
    (h : SQGate.mul A B = .ok C) :
    C.unitaryMatrix = A.unitaryMatrix * B.unitaryMatrix := by
  by_cases hq : A.qubit = B.qubit
  · simp only [SQGate.mul, if_pos hq] at h
    cases h
    show sqgMatrix _ _ _ _ _ = _
    rw [sqgMatrix, fromPair_re_im, fromPair_re_im, phaseMatrix_mul,
      ← unitary_coherence A, ← unitary_coherence B]
  · simp [SQGate.mul, hq] at h

theorem single_qubit_mul_unitary_witness :
    SQGate.mul (.pauliX 0) (.pauliX 0)
        = .ok (.singleQubitGate 0
            ((fromPair 0 0 * fromPair 0 0
                - fromPair 0 (-1) * (starRingEnd ℂ) (fromPair 0 (-1))).re)
            ((fromPair 0 0 * fromPair 0 0
                - fromPair 0 (-1) * (starRingEnd ℂ) (fromPair 0 (-1))).im)
            ((fromPair 0 (-1) * fromPair 0 0
                + fromPair 0 (-1) * (starRingEnd ℂ) (fromPair 0 0)).re)
            ((fromPair 0 (-1) * fromPair 0 0
                + fromPair 0 (-1) * (starRingEnd ℂ) (fromPair 0 0)).im)
            (Real.pi / 2 + Real.pi / 2))
      ∧ (SQGate.singleQubitGate 0
            ((fromPair 0 0 * fromPair 0 0
                - fromPair 0 (-1) * (starRingEnd ℂ) (fromPair 0 (-1))).re)
            ((fromPair 0 0 * fromPair 0 0
                - fromPair 0 (-1) * (starRingEnd ℂ) (fromPair 0 (-1))).im)
            ((fromPair 0 (-1) * fromPair 0 0
                + fromPair 0 (-1) * (starRingEnd ℂ) (fromPair 0 0)).re)
            ((fromPair 0 (-1) * fromPair 0 0
                + fromPair 0 (-1) * (starRingEnd ℂ) (fromPair 0 0)).im)
            (Real.pi / 2 + Real.pi / 2)).unitaryMatrix
          = (SQGate.pauliX 0).unitaryMatrix * (SQGate.pauliX 0).unitaryMatrix :=
  ⟨rfl, single_qubit_mul_unitary (.pauliX 0) (.pauliX 0) _ rfl⟩

end Qoqo

